import Mathlib

/-!
Verification model of the add-alias-plugin repository (src/main.ts and the
second plugin version in src/unnamed/part_000).

The plugin reads the active document, strips a leading YAML frontmatter
block from its body, truncates the body to a configured maximum length,
calls a chat-completion endpoint, parses the textual reply either as a
JSON array or as a comma-separated string, and merges the parsed aliases
into the document frontmatter, deduplicating with a JS `Set`.

Modelling conventions:
* JS strings are modelled as Lean `String` / `List Char` (code points;
  astral characters count 1 here and 2 in JS `.length` — no claim in
  question depends on the difference, and lone surrogates produced by
  `\u` escapes are mapped to U+0000 by `Char.ofNat`).
* JS numbers are kept as their source lexeme (`Json.num lexeme`); no claim
  compares numbers across different lexemes.
* `JSON.parse` is modelled by `jsonParse`, a fuel-based recursive-descent
  parser of the JSON grammar; the fuel `2 * length + 4` is sufficient for
  every input because each two fuel units consume at least one character.
* Thrown-and-caught JS exceptions are modelled by `Option`/explicit error
  results.
-/

/-- The values `JSON.parse` can produce (JS primitives, arrays, objects).
Object fields are kept in source order; duplicate keys are resolved by
`jsMember` taking the last binding, as JS object literals do. -/
inductive Json where
  | null
  | bool (b : Bool)
  | num (lexeme : String)
  | str (s : String)
  | arr (elems : List Json)
  | obj (fields : List (String × Json))

mutual

/-- Structural equality on `Json` values. This models the value equality
the JS `Set` in `updateFrontMatter` uses (SameValueZero); the two agree on
all primitive values, which are the only ones any claim deduplicates. -/
def Json.beq : Json → Json → Bool
  | .null, .null => true
  | .bool a, .bool b => a == b
  | .num a, .num b => a == b
  | .str a, .str b => a == b
  | .arr a, .arr b => Json.beqArr a b
  | .obj a, .obj b => Json.beqObj a b
  | _, _ => false

/-- Elementwise `Json.beq` on arrays. -/
def Json.beqArr : List Json → List Json → Bool
  | [], [] => true
  | x :: xs, y :: ys => Json.beq x y && Json.beqArr xs ys
  | _, _ => false

/-- Fieldwise `Json.beq` on object field lists. -/
def Json.beqObj : List (String × Json) → List (String × Json) → Bool
  | [], [] => true
  | (k1, v1) :: xs, (k2, v2) :: ys => k1 == k2 && Json.beq v1 v2 && Json.beqObj xs ys
  | _, _ => false

end

mutual

/-- Reflexivity of `Json.beq`. -/
def Json.beqRefl : (a : Json) → Json.beq a a = true
  | .null => rfl
  | .bool b => by simp [Json.beq]
  | .num a => by simp [Json.beq]
  | .str a => by simp [Json.beq]
  | .arr l => by rw [Json.beq]; exact Json.beqArrRefl l
  | .obj l => by rw [Json.beq]; exact Json.beqObjRefl l

/-- Reflexivity of `Json.beqArr`. -/
def Json.beqArrRefl : (l : List Json) → Json.beqArr l l = true
  | [] => rfl
  | x :: xs => by rw [Json.beqArr, Json.beqRefl x, Json.beqArrRefl xs]; rfl

/-- Reflexivity of `Json.beqObj`. -/
def Json.beqObjRefl : (l : List (String × Json)) → Json.beqObj l l = true
  | [] => rfl
  | (k, v) :: xs => by rw [Json.beqObj, Json.beqRefl v, Json.beqObjRefl xs]; simp

end

mutual

/-- Soundness of `Json.beq`: it only identifies equal values. -/
def Json.beqSound : (a b : Json) → Json.beq a b = true → a = b
  | .null, .null, _ => rfl
  | .bool a, .bool b, h => by rw [Json.beq] at h; simp at h; rw [h]
  | .num a, .num b, h => by rw [Json.beq] at h; simp at h; rw [h]
  | .str a, .str b, h => by rw [Json.beq] at h; simp at h; rw [h]
  | .arr a, .arr b, h => by rw [Json.beq] at h; rw [Json.beqArrSound a b h]
  | .obj a, .obj b, h => by rw [Json.beq] at h; rw [Json.beqObjSound a b h]
  | .null, .bool _, h => absurd h (by simp [Json.beq])
  | .null, .num _, h => absurd h (by simp [Json.beq])
  | .null, .str _, h => absurd h (by simp [Json.beq])
  | .null, .arr _, h => absurd h (by simp [Json.beq])
  | .null, .obj _, h => absurd h (by simp [Json.beq])
  | .bool _, .null, h => absurd h (by simp [Json.beq])
  | .bool _, .num _, h => absurd h (by simp [Json.beq])
  | .bool _, .str _, h => absurd h (by simp [Json.beq])
  | .bool _, .arr _, h => absurd h (by simp [Json.beq])
  | .bool _, .obj _, h => absurd h (by simp [Json.beq])
  | .num _, .null, h => absurd h (by simp [Json.beq])
  | .num _, .bool _, h => absurd h (by simp [Json.beq])
  | .num _, .str _, h => absurd h (by simp [Json.beq])
  | .num _, .arr _, h => absurd h (by simp [Json.beq])
  | .num _, .obj _, h => absurd h (by simp [Json.beq])
  | .str _, .null, h => absurd h (by simp [Json.beq])
  | .str _, .bool _, h => absurd h (by simp [Json.beq])
  | .str _, .num _, h => absurd h (by simp [Json.beq])
  | .str _, .arr _, h => absurd h (by simp [Json.beq])
  | .str _, .obj _, h => absurd h (by simp [Json.beq])
  | .arr _, .null, h => absurd h (by simp [Json.beq])
  | .arr _, .bool _, h => absurd h (by simp [Json.beq])
  | .arr _, .num _, h => absurd h (by simp [Json.beq])
  | .arr _, .str _, h => absurd h (by simp [Json.beq])
  | .arr _, .obj _, h => absurd h (by simp [Json.beq])
  | .obj _, .null, h => absurd h (by simp [Json.beq])
  | .obj _, .bool _, h => absurd h (by simp [Json.beq])
  | .obj _, .num _, h => absurd h (by simp [Json.beq])
  | .obj _, .str _, h => absurd h (by simp [Json.beq])
  | .obj _, .arr _, h => absurd h (by simp [Json.beq])

/-- Soundness of `Json.beqArr`. -/
def Json.beqArrSound : (l m : List Json) → Json.beqArr l m = true → l = m
  | [], [], _ => rfl
  | x :: xs, y :: ys, h => by
      rw [Json.beqArr] at h
      simp only [Bool.and_eq_true] at h
      rw [Json.beqSound x y h.1, Json.beqArrSound xs ys h.2]
  | [], _ :: _, h => absurd h (by simp [Json.beqArr])
  | _ :: _, [], h => absurd h (by simp [Json.beqArr])

/-- Soundness of `Json.beqObj`. -/
def Json.beqObjSound : (l m : List (String × Json)) → Json.beqObj l m = true → l = m
  | [], [], _ => rfl
  | (k1, v1) :: xs, (k2, v2) :: ys, h => by
      rw [Json.beqObj] at h
      simp only [Bool.and_eq_true] at h
      rw [Json.beqSound v1 v2 h.1.2, Json.beqObjSound xs ys h.2]
      simp only [beq_iff_eq] at h
      rw [h.1.1]
  | [], _ :: _, h => absurd h (by simp [Json.beqObj])
  | _ :: _, [], h => absurd h (by simp [Json.beqObj])

end

instance : DecidableEq Json := fun a b =>
  decidable_of_iff (Json.beq a b = true) ⟨Json.beqSound a b, fun h => h ▸ Json.beqRefl a⟩

/-! JS string primitives used by the plugin code. -/

/-- Whitespace removed by JS `String.prototype.trim` (ECMAScript WhiteSpace
and LineTerminator sets). -/
def isJsWs (c : Char) : Bool :=
  c == ' ' || c == '\t' || c == '\n' || c == '\r' ||
  c.toNat == 11 || c.toNat == 12 || c.toNat == 160 ||
  c.toNat == 0x1680 || (decide (0x2000 ≤ c.toNat) && decide (c.toNat ≤ 0x200A)) ||
  c.toNat == 0x2028 || c.toNat == 0x2029 || c.toNat == 0x202F ||
  c.toNat == 0x205F || c.toNat == 0x3000 || c.toNat == 0xFEFF

/-- Leading- and trailing-whitespace removal on a character list. -/
def trimChars (l : List Char) : List Char :=
  ((l.dropWhile isJsWs).reverse.dropWhile isJsWs).reverse

/-- Model of JS `s.trim()`. -/
def jsTrim (s : String) : String := String.mk (trimChars s.toList)

/-- Model of JS `s.split(',')`: split on every comma, keeping empty
segments; the empty string yields `[[]]`. -/
def splitComma : List Char → List (List Char)
  | [] => [[]]
  | c :: r =>
    if c = ',' then [] :: splitComma r
    else
      match splitComma r with
      | g :: gs => (c :: g) :: gs
      | [] => [[c]]

/-! Recursive-descent model of `JSON.parse`. -/

/-- Whitespace the JSON grammar allows between tokens. -/
def isJsonWs (c : Char) : Bool :=
  c == ' ' || c == '\t' || c == '\n' || c == '\r'

/-- Skip JSON inter-token whitespace. -/
def skipWs (s : List Char) : List Char := s.dropWhile isJsonWs

/-- Value of a hexadecimal digit, if `c` is one. -/
def hexDigitVal (c : Char) : Option Nat :=
  if c.isDigit then some (c.toNat - 48)
  else if decide (97 ≤ c.toNat) && decide (c.toNat ≤ 102) then some (c.toNat - 87)
  else if decide (65 ≤ c.toNat) && decide (c.toNat ≤ 70) then some (c.toNat - 55)
  else none

/-- Single-character JSON string escapes. -/
def escMap : Char → Option Char
  | '"' => some '"'
  | '\\' => some '\\'
  | '/' => some '/'
  | 'b' => some (Char.ofNat 8)
  | 'f' => some (Char.ofNat 12)
  | 'n' => some '\n'
  | 'r' => some '\r'
  | 't' => some '\t'
  | _ => none

/-- Parse the body of a JSON string literal (the opening quote already
consumed), returning the decoded characters and the rest of the input. -/
def parseStringChars : List Char → Option (List Char × List Char)
  | [] => none
  | '"' :: r => some ([], r)
  | '\\' :: 'u' :: h1 :: h2 :: h3 :: h4 :: r =>
    (match hexDigitVal h1, hexDigitVal h2, hexDigitVal h3, hexDigitVal h4 with
     | some a, some b, some c, some d =>
       (match parseStringChars r with
        | some (cs, r2) => some (Char.ofNat (((a * 16 + b) * 16 + c) * 16 + d) :: cs, r2)
        | none => none)
     | _, _, _, _ => none)
  | '\\' :: e :: r =>
    (match escMap e with
     | some c =>
       (match parseStringChars r with
        | some (cs, r2) => some (c :: cs, r2)
        | none => none)
     | none => none)
  | c :: r =>
    if c.toNat < 32 then none
    else
      match parseStringChars r with
      | some (cs, r2) => some (c :: cs, r2)
      | none => none

/-- Longest digit prefix and the rest. -/
def spanDigits (s : List Char) : List Char × List Char := s.span (·.isDigit)

/-- Optional fraction part of a JSON number (source characters). -/
def parseFracPart : List Char → Option (List Char × List Char)
  | '.' :: r =>
    let (ds, r2) := spanDigits r
    if ds = [] then none else some ('.' :: ds, r2)
  | s => some ([], s)

/-- Optional exponent part of a JSON number (source characters). -/
def parseExpPart : List Char → Option (List Char × List Char)
  | [] => some ([], [])
  | e :: r =>
    if e = 'e' ∨ e = 'E' then
      match r with
      | [] => none
      | c :: r2 =>
        if c = '+' ∨ c = '-' then
          let (ds, r3) := spanDigits r2
          if ds = [] then none else some (e :: c :: ds, r3)
        else
          let (ds, r3) := spanDigits r
          if ds = [] then none else some (e :: ds, r3)
    else some ([], e :: r)

/-- Parse a JSON number (the input begins with `-` or a digit), keeping its
source lexeme. A leading `0` may not be followed by more integer digits,
per the JSON grammar; leftover digits are rejected by the caller. -/
def parseNumber (s : List Char) : Option (Json × List Char) :=
  let (sign, s1) : List Char × List Char :=
    match s with
    | '-' :: r => (['-'], r)
    | _ => ([], s)
  match s1 with
  | '0' :: r => do
    let (f, r2) ← parseFracPart r
    let (e, r3) ← parseExpPart r2
    some (.num (String.mk (sign ++ ['0'] ++ f ++ e)), r3)
  | c :: r =>
    if c.isDigit then do
      let (ds, r2) := spanDigits (c :: r)
      let (f, r3) ← parseFracPart r2
      let (e, r4) ← parseExpPart r3
      some (.num (String.mk (sign ++ ds ++ f ++ e)), r4)
    else none
  | [] => none

mutual

/-- Parse one JSON value after optional leading whitespace, returning the
value and the unconsumed input. -/
def parseVal : Nat → List Char → Option (Json × List Char)
  | 0, _ => none
  | Nat.succ fuel, s =>
    match skipWs s with
    | '[' :: r =>
      (match skipWs r with
       | ']' :: r2 => some (.arr [], r2)
       | _ =>
         match parseItems fuel r with
         | some (vs, r2) => some (.arr vs, r2)
         | none => none)
    | '{' :: r =>
      (match skipWs r with
       | '}' :: r2 => some (.obj [], r2)
       | _ =>
         match parseMembers fuel r with
         | some (ms, r2) => some (.obj ms, r2)
         | none => none)
    | '"' :: r =>
      (match parseStringChars r with
       | some (cs, r2) => some (.str (String.mk cs), r2)
       | none => none)
    | 't' :: 'r' :: 'u' :: 'e' :: r => some (.bool true, r)
    | 'f' :: 'a' :: 'l' :: 's' :: 'e' :: r => some (.bool false, r)
    | 'n' :: 'u' :: 'l' :: 'l' :: r => some (.null, r)
    | c :: r => if c = '-' ∨ c.isDigit then parseNumber (c :: r) else none
    | [] => none

/-- Parse the comma-separated items of a non-empty JSON array, up to and
including the closing bracket. -/
def parseItems : Nat → List Char → Option (List Json × List Char)
  | 0, _ => none
  | Nat.succ fuel, s => do
    let (v, r) ← parseVal fuel s
    match skipWs r with
    | ',' :: r2 => do
      let (vs, r3) ← parseItems fuel r2
      some (v :: vs, r3)
    | ']' :: r2 => some ([v], r2)
    | _ => none

/-- Parse the members of a non-empty JSON object, up to and including the
closing brace. -/
def parseMembers : Nat → List Char → Option (List (String × Json) × List Char)
  | 0, _ => none
  | Nat.succ fuel, s =>
    match skipWs s with
    | '"' :: r => do
      let (k, r1) ← parseStringChars r
      match skipWs r1 with
      | ':' :: r2 => do
        let (v, r3) ← parseVal fuel r2
        match skipWs r3 with
        | ',' :: r4 => do
          let (ms, r5) ← parseMembers fuel r4
          some ((String.mk k, v) :: ms, r5)
        | '}' :: r4 => some ([(String.mk k, v)], r4)
        | _ => none
      | _ => none
    | _ => none

end

/-- Model of JS `JSON.parse(raw)`: `some v` when it returns value `v`,
`none` when it throws a syntax error. The whole input must be consumed up
to trailing whitespace. -/
def jsonParse (raw : String) : Option Json :=
  let cs := raw.toList
  match parseVal (2 * cs.length + 4) cs with
  | some (v, rest) => if (skipWs rest).isEmpty then some v else none
  | none => none

/-- Model of the reply-parsing step shared by `getAliases` (src/main.ts
lines 112-122) and `getDeclensions` (part_000 lines 85-95): try
`JSON.parse`; when — and only when — it throws, split on commas and trim
each segment. A successful parse is returned as-is, whatever its shape. -/
def parseReply (raw : String) : Json :=
  match jsonParse raw with
  | some v => v
  | none => .arr ((splitComma raw.toList).map (fun g => .str (String.mk (trimChars g))))

/-! Keep-first deduplication: the behaviour of `Array.from(new Set(l))`,
which inserts elements left to right and keeps the first occurrence of
each distinct value. -/

/-- Deduplicate `l`, skipping elements already in `seen` and keeping the
first occurrence of each remaining value. -/
def dedupFirstAux [DecidableEq α] (seen : List α) : List α → List α
  | [] => []
  | x :: xs => if x ∈ seen then dedupFirstAux seen xs else x :: dedupFirstAux (x :: seen) xs

/-- Model of `Array.from(new Set(l))`. -/
def jsSetDedup [DecidableEq α] (l : List α) : List α := dedupFirstAux [] l

/-- Index of the first occurrence of `a` (length of the list when absent). -/
def firstIdx [DecidableEq α] (a : α) : List α → Nat
  | [] => 0
  | x :: xs => if x = a then 0 else firstIdx a xs + 1

/-! AliasMerger: `updateFrontMatter` (src/main.ts lines 130-153 and the
identical part_000 lines 106-129). -/

/-- Whether a JSON number lexeme denotes zero (sign and exponent do not
affect zeroness; the mantissa digits decide). -/
def numLexemeIsZero (lx : String) : Bool :=
  ((lx.toList.takeWhile (fun c => c != 'e' && c != 'E')).filter
    (fun c => c != '-' && c != '.')).all (· == '0')

/-- JS truthiness of a parsed value, as tested by `if (fmAliases)`. -/
def jsTruthy : Json → Bool
  | .null => false
  | .bool b => b
  | .num lx => !(numLexemeIsZero lx)
  | .str s => !(s.toList.isEmpty)
  | .arr _ => true
  | .obj _ => true

/-- The two type tests of lines 138-142: `Array.isArray(fmAliases)` or
`typeof fmAliases === 'string'`. -/
def isArrayOrString : Json → Bool
  | .arr _ => true
  | .str _ => true
  | _ => false

/-- Lines 132-144: normalize the frontmatter `aliases` value into the
`existingAliases` array. `none` models a missing file cache, missing
frontmatter, or absent `aliases` key — all of which leave the default
empty array in place, as does any falsy or non-array, non-string value. -/
def normalizeExisting : Option Json → List Json
  | none => []
  | some v =>
    if jsTruthy v then
      match v with
      | .arr l => l
      | .str s => [.str s]
      | _ => []
    else []

/-- Line 147: `Array.from(new Set([...existingAliases, ...aliasesArray]))`. -/
def updateFrontMatter (fm : Option Json) (aliasesArray : List Json) : List Json :=
  jsSetDedup (normalizeExisting fm ++ aliasesArray)

/-- Lines 150-152: the value stored into `frontmatter.aliases` — by
construction always an array. -/
def writtenAliases (fm : Option Json) (aliasesArray : List Json) : Json :=
  .arr (updateFrontMatter fm aliasesArray)

/-- The same merge at the string level, the declared element type of both
`existingAliases` and `aliasesArray` (`string[]`). -/
def mergeAliases (existing discovered : List String) : List String :=
  jsSetDedup (existing ++ discovered)

/-! CompletionClient: `getAliases` (src/main.ts lines 67-128). The network
reply is an input; the notices and console logging it emits are recorded
in the result. -/

/-- Outcome of the `fetch` call: the `fetch` or `response.json()` promise
rejects (`transportError` / body `none`), or a response arrives with
`response.ok` false (`httpError`) or true (`success`), its JSON body
already parsed. -/
inductive ApiOutcome where
  | transportError
  | httpError (body : Option Json)
  | success (body : Option Json)

/-- What a `getAliases` call produced: the JS value it returned, the
notices shown, and whether `console.error` ran. -/
structure CallResult where
  returned : Json
  notices : List String
  logged : Bool

def netErrMsg : String := "Ошибка при обращении к OpenAI API. Проверьте подключение к интернету."

def apiErrPrefix : String := "Ошибка OpenAI API: "

def noFileMsg : String := "Нет открытого файла"

def noKeyMsg : String := "Пожалуйста, введите ваш OpenAI API ключ в настройках плагина"

def updatedMsg : String := "Алиасы обновлены"

def failedMsg : String := "Не удалось получить алиасы"

/-- Last binding of key `k` (JS object literals let later duplicate keys
win). -/
def lookupLast (fields : List (String × Json)) (k : String) : Option Json :=
  match fields with
  | [] => none
  | (k1, v) :: rest =>
    match lookupLast rest k with
    | some v' => some v'
    | none => if k1 = k then some v else none

/-- JS property read `v[k]`: `none` models `undefined`. Reads on `null`
are modelled as `none` too; every place the plugin dereferences the result
treats `undefined` and a throw on `null` identically (both end in the
enclosing catch), so the collapse is observation-equivalent. -/
def jsMember : Json → String → Option Json
  | .obj fields, k => lookupLast fields k
  | _, _ => none

/-- JS element read `v[0]` (arrays by index, objects by key "0", strings
by character). -/
def jsIndexZero : Json → Option Json
  | .arr (x :: _) => some x
  | .arr [] => none
  | .obj fields => lookupLast fields "0"
  | .str s =>
    (match s.toList with
     | [] => none
     | c :: _ => some (.str (String.mk [c])))
  | _ => none

/-- Lines 109-110: `data.choices[0].message.content.trim()`. Returns
`none` exactly when the chain throws (missing field, `null`, or a
non-string `content`, which has no `.trim`); the throw lands in the
enclosing catch. -/
def extractContent (data : Json) : Option String :=
  match jsMember data "choices" with
  | none => none
  | some choices =>
    match jsIndexZero choices with
    | none => none
    | some c0 =>
      match jsMember c0 "message" with
      | none => none
      | some msg =>
        match jsMember msg "content" with
        | some (.str s) => some (jsTrim s)
        | _ => none

mutual

/-- JS template-literal stringification of a value. -/
def jsDisplay : Json → String
  | .null => "null"
  | .bool true => "true"
  | .bool false => "false"
  | .num lx => lx
  | .str s => s
  | .arr l => jsDisplayList l
  | .obj _ => "[object Object]"

/-- `Array.prototype.join(",")`: elements stringified, `null` as empty. -/
def jsDisplayList : List Json → String
  | [] => ""
  | [.null] => ""
  | [v] => jsDisplay v
  | .null :: rest => "," ++ jsDisplayList rest
  | v :: rest => jsDisplay v ++ "," ++ jsDisplayList rest

end

/-- Stringification of a property read (`undefined` when absent). -/
def jsDisplayMember : Option Json → String
  | none => "undefined"
  | some v => jsDisplay v

/-- Result of every path that ends in the `catch` block (lines 123-127):
log, show the generic connectivity notice, return `[]`. -/
def catchResult : CallResult := ⟨.arr [], [netErrMsg], true⟩

/-- Model of `getAliases` (lines 67-128) as a function of the network
outcome. The happy path parses the trimmed reply text via `parseReply`;
a non-ok response shows the provider message (lines 102-107); any throw —
transport failure, unparsable body, missing fields in a success body, a
`null` error object — is caught by the surrounding try/catch and yields
`catchResult`. -/
def getAliases : ApiOutcome → CallResult
  | .transportError => catchResult
  | .httpError none => catchResult
  | .httpError (some body) =>
    (match jsMember body "error" with
     | none => catchResult
     | some .null => catchResult
     | some errVal => ⟨.arr [], [apiErrPrefix ++ jsDisplayMember (jsMember errVal "message")], true⟩)
  | .success none => catchResult
  | .success (some body) =>
    (match extractContent body with
     | none => catchResult
     | some content => ⟨parseReply content, [], false⟩)

/-! Orchestrator: `addAliases` (src/main.ts lines 28-65 and the identical
control flow in part_000 lines 26-51). -/

/-- The active document: its title, raw body text, and the frontmatter
`aliases` value the metadata cache holds for it. -/
structure FileData where
  basename : String
  content : String
  fmAliases : Option Json

/-- Outcome of one `addAliases` invocation: the value written into the
frontmatter `aliases` field (if any), the notices shown in order, and
whether the completion endpoint was called. -/
structure OrchResult where
  written : Option Json
  notices : List String
  networkCalled : Bool

/-- The guard `aliasesArray && aliasesArray.length > 0` on the value
`getAliases` returned. Arrays and strings carry `.length`; on the other
JSON values the read gives `undefined`, and `undefined > 0` is false
(`null` is already falsy). An object carrying its own numeric "length"
property could pass the JS guard and then throw on spread; no JSON reply
shape exercised by any claim produces one, and the model excludes it. -/
def jsHasPositiveLength : Json → Bool
  | .arr l => decide (0 < l.length)
  | .str s => decide (0 < s.toList.length)
  | _ => false

/-- JS spread `[...v]` for the values that pass the guard above: arrays
spread to their elements, strings to their characters. Non-iterable
values would throw, but the guard keeps them out of the spread. -/
def jsSpread : Json → List Json
  | .arr l => l
  | .str s => s.toList.map (fun c => .str (String.mk [c]))
  | _ => []

/-- Model of `addAliases` (lines 28-65): precondition checks, then the
completion call, then either the frontmatter write plus success notice or
the failure notice. The body excerpt sent to the endpoint is built by
`buildBody` below (lines 45-54); it only shapes the prompt, so the reply
is taken here as the free input `api`. -/
def addAliases (activeFile : Option FileData) (openaiApiKey : String)
    (maxContentLength : Nat) (api : ApiOutcome) : OrchResult :=
  match activeFile with
  | none => ⟨none, [noFileMsg], false⟩
  | some file =>
    if openaiApiKey = "" then ⟨none, [noKeyMsg], false⟩
    else
      let r := getAliases api
      if jsHasPositiveLength r.returned then
        ⟨some (writtenAliases file.fmAliases (jsSpread r.returned)), r.notices ++ [updatedMsg], true⟩
      else
        ⟨none, r.notices ++ [failedMsg], true⟩

/-! PromptBuilder: the body preparation in `addAliases`
(src/main.ts lines 45-54) — YAML frontmatter stripping followed by
prefix truncation. -/

/-- Position of the first occurrence of `needle` in `hay` (leftmost index
at which `needle` is a prefix of the remaining input), as a non-greedy
regex search finds it. -/
def firstMatch (needle : List Char) : List Char → Option Nat
  | [] => if needle.isPrefixOf [] then some 0 else none
  | c :: t => if needle.isPrefixOf (c :: t) then some 0 else (firstMatch needle t).map (· + 1)

/-- Whether `needle` occurs anywhere in `hay`. -/
def hasSub (needle hay : List Char) : Bool := (firstMatch needle hay).isSome

/-- The opening delimiter `---\n` the regex of line 48 anchors at. -/
def yamlOpen : List Char := ['-', '-', '-', '\n']

/-- The closing delimiter `\n---\n`. -/
def yamlClose : List Char := ['\n', '-', '-', '-', '\n']

/-- The closing delimiter without its final newline. -/
def yamlCloseHead : List Char := ['\n', '-', '-', '-']

/-- Line 48: `fileContent.replace(/^---\n[\s\S]*?\n---\n/, '')`. The
pattern must match at the very start; `[\s\S]*?` is non-greedy, so the
block ends at the first occurrence of `\n---\n` after the opening
delimiter; when there is no match the content is unchanged. -/
def stripYaml (s : List Char) : List Char :=
  if yamlOpen.isPrefixOf s then
    match firstMatch yamlClose (s.drop 4) with
    | some i => (s.drop 4).drop (i + 5)
    | none => s
  else s

/-- Lines 51-54: keep only the first `maxLen` characters when the content
is longer. -/
def truncateContent (s : List Char) (maxLen : Nat) : List Char :=
  if maxLen < s.length then s.take maxLen else s

/-- The body excerpt embedded into the prompt: strip first, then
truncate. -/
def buildBody (fileContent : List Char) (maxContentLength : Nat) : List Char :=
  truncateContent (stripYaml fileContent) maxContentLength

/-! Concrete inputs used by witnesses and counterexamples below. -/

/-- A document with no frontmatter aliases. -/
def exampleFile : FileData := ⟨"Заметка", "text", none⟩

/-- A well-formed success body whose reply text is `content`. -/
def replyBody (content : String) : Json :=
  .obj [("choices", .arr [.obj [("message", .obj [("content", .str content)])]])]

theorem mem_dedupFirstAux [DecidableEq α] {seen l : List α} {a : α} :
    a ∈ dedupFirstAux seen l ↔ a ∈ l ∧ a ∉ seen := by
  induction l generalizing seen with
  | nil => simp [dedupFirstAux]
  | cons x xs ih =>
    by_cases hx : x ∈ seen
    · rw [dedupFirstAux, if_pos hx, ih]
      constructor
      · exact fun ⟨h1, h2⟩ => ⟨List.mem_cons_of_mem x h1, h2⟩
      · rintro ⟨h1, h2⟩
        rcases List.mem_cons.mp h1 with h | h
        · exact absurd (h ▸ hx) h2
        · exact ⟨h, h2⟩
    · rw [dedupFirstAux, if_neg hx]
      constructor
      · intro h
        rcases List.mem_cons.mp h with h | h
        · exact ⟨h ▸ List.mem_cons_self x xs, h ▸ hx⟩
        · obtain ⟨h1, h2⟩ := ih.mp h
          refine ⟨List.mem_cons_of_mem x h1, fun hs => h2 (List.mem_cons_of_mem x hs)⟩
      · rintro ⟨h1, h2⟩
        by_cases hax : a = x
        · exact hax ▸ List.mem_cons_self x _
        · rcases List.mem_cons.mp h1 with h | h
          · exact absurd h hax
          · exact List.mem_cons_of_mem x (ih.mpr ⟨h, by
              intro hs
              rcases List.mem_cons.mp hs with h' | h'
              · exact hax h'
              · exact h2 h'⟩)

theorem dedupFirstAux_all_seen [DecidableEq α] {seen D : List α} (h : ∀ a ∈ D, a ∈ seen) :
    dedupFirstAux seen D = [] := by
  induction D with
  | nil => rfl
  | cons d ds ih =>
    rw [dedupFirstAux, if_pos (h d (List.mem_cons_self d ds))]
    exact ih fun a ha => h a (List.mem_cons_of_mem d ha)

theorem dedupFirstAux_append_absorb [DecidableEq α] {seen l D : List α}
    (h : ∀ a ∈ D, a ∈ seen ∨ a ∈ l) :
    dedupFirstAux seen (l ++ D) = dedupFirstAux seen l := by
  induction l generalizing seen with
  | nil =>
    rw [List.nil_append]
    exact dedupFirstAux_all_seen fun a ha => (h a ha).resolve_right (by simp)
  | cons x xs ih =>
    rw [List.cons_append, dedupFirstAux, dedupFirstAux]
    by_cases hx : x ∈ seen
    · rw [if_pos hx, if_pos hx]
      refine ih fun a ha => ?_
      rcases h a ha with h' | h'
      · exact Or.inl h'
      · rcases List.mem_cons.mp h' with h'' | h''
        · exact Or.inl (h'' ▸ hx)
        · exact Or.inr h''
    · rw [if_neg hx, if_neg hx]
      congr 1
      refine ih fun a ha => ?_
      rcases h a ha with h' | h'
      · exact Or.inl (List.mem_cons_of_mem x h')
      · rcases List.mem_cons.mp h' with h'' | h''
        · exact Or.inl (h'' ▸ List.mem_cons_self x seen)
        · exact Or.inr h''

theorem dedupFirstAux_eq_self [DecidableEq α] {seen l : List α}
    (hnd : l.Nodup) (hdis : ∀ a ∈ l, a ∉ seen) :
    dedupFirstAux seen l = l := by
  induction l generalizing seen with
  | nil => rfl
  | cons x xs ih =>
    have hx : x ∉ seen := hdis x (List.mem_cons_self x xs)
    rw [dedupFirstAux, if_neg hx]
    congr 1
    refine ih (List.Nodup.of_cons hnd) fun a ha hs => ?_
    rcases List.mem_cons.mp hs with h' | h'
    · exact (List.nodup_cons.mp hnd).1 (h' ▸ ha)
    · exact hdis a (List.mem_cons_of_mem x ha) h'

theorem dedupFirstAux_nodup [DecidableEq α] (seen l : List α) :
    (dedupFirstAux seen l).Nodup := by
  induction l generalizing seen with
  | nil => simp [dedupFirstAux]
  | cons x xs ih =>
    rw [dedupFirstAux]
    by_cases hx : x ∈ seen
    · rw [if_pos hx]; exact ih seen
    · rw [if_neg hx]
      refine List.nodup_cons.mpr ⟨fun hmem => ?_, ih (x :: seen)⟩
      exact (mem_dedupFirstAux.mp hmem).2 (List.mem_cons_self x seen)

theorem dedupFirstAux_sublist [DecidableEq α] (seen l : List α) :
    List.Sublist (dedupFirstAux seen l) l := by
  induction l generalizing seen with
  | nil => exact List.Sublist.refl []
  | cons x xs ih =>
    rw [dedupFirstAux]
    by_cases hx : x ∈ seen
    · rw [if_pos hx]; exact List.sublist_cons_of_sublist x (ih seen)
    · rw [if_neg hx]; exact List.Sublist.cons₂ x (ih (x :: seen))

theorem dedupFirstAux_prefix_append [DecidableEq α] (seen l D : List α) :
    dedupFirstAux seen l <+: dedupFirstAux seen (l ++ D) := by
  induction l generalizing seen with
  | nil => exact List.nil_prefix
  | cons x xs ih =>
    rw [List.cons_append, dedupFirstAux, dedupFirstAux]
    by_cases hx : x ∈ seen
    · rw [if_pos hx, if_pos hx]; exact ih seen
    · rw [if_neg hx, if_neg hx]
      obtain ⟨t, ht⟩ := ih (x :: seen)
      exact ⟨t, by rw [List.cons_append, ht]⟩

theorem firstIdx_cons_ne [DecidableEq α] {a x : α} (h : x ≠ a) (xs : List α) :
    firstIdx a (x :: xs) = firstIdx a xs + 1 := by
  simp [firstIdx, h]

theorem dedupFirstAux_pairwise_firstIdx [DecidableEq α] (seen l : List α) :
    (dedupFirstAux seen l).Pairwise (fun a b => firstIdx a l < firstIdx b l) := by
  induction l generalizing seen with
  | nil => simp [dedupFirstAux]
  | cons x xs ih =>
    rw [dedupFirstAux]
    by_cases hx : x ∈ seen
    · rw [if_pos hx]
      refine (ih seen).imp_of_mem fun {a b} ha hb hR => ?_
      have hax : x ≠ a := fun he => (mem_dedupFirstAux.mp ha).2 (he ▸ hx)
      have hbx : x ≠ b := fun he => (mem_dedupFirstAux.mp hb).2 (he ▸ hx)
      rw [firstIdx_cons_ne hax, firstIdx_cons_ne hbx]
      omega
    · rw [if_neg hx]
      refine List.pairwise_cons.mpr ⟨fun b hb => ?_, ?_⟩
      · have hbx : x ≠ b := fun he =>
          (mem_dedupFirstAux.mp hb).2 (he ▸ List.mem_cons_self x seen)
        have hxx : firstIdx x (x :: xs) = 0 := by simp [firstIdx]
        rw [hxx, firstIdx_cons_ne hbx]
        omega
      · refine (ih (x :: seen)).imp_of_mem fun {a b} ha hb hR => ?_
        have hax : x ≠ a := fun he =>
          (mem_dedupFirstAux.mp ha).2 (he ▸ List.mem_cons_self x seen)
        have hbx : x ≠ b := fun he =>
          (mem_dedupFirstAux.mp hb).2 (he ▸ List.mem_cons_self x seen)
        rw [firstIdx_cons_ne hax, firstIdx_cons_ne hbx]
        omega

theorem firstMatch_isSome {n h : List Char} {j : Nat} (hj : n <+: h.drop j) :
    (firstMatch n h).isSome = true := by
  induction h generalizing j with
  | nil =>
    rw [List.drop_nil] at hj
    rw [firstMatch, if_pos (List.isPrefixOf_iff_prefix.mpr hj)]
    rfl
  | cons x t ih =>
    by_cases h0 : n.isPrefixOf (x :: t)
    · simp [firstMatch, h0]
    · cases j with
      | zero =>
        rw [List.drop_zero] at hj
        exact absurd (List.isPrefixOf_iff_prefix.mpr hj) h0
      | succ j' =>
        rw [List.drop_succ_cons] at hj
        have := ih hj
        rw [firstMatch, if_neg h0]
        simpa using this

theorem firstMatch_eq_some {n h : List Char} {k : Nat} (hk : n <+: h.drop k)
    (hmin : ∀ j, j < k → ¬ (n <+: h.drop j)) : firstMatch n h = some k := by
  induction h generalizing k with
  | nil =>
    rw [List.drop_nil] at hk
    cases k with
    | zero => rw [firstMatch, if_pos (List.isPrefixOf_iff_prefix.mpr hk)]
    | succ k' =>
      exact absurd (by rw [List.drop_nil]; exact hk) (hmin 0 (Nat.succ_pos k'))
  | cons x t ih =>
    by_cases h0 : n.isPrefixOf (x :: t)
    · cases k with
      | zero => rw [firstMatch, if_pos h0]
      | succ k' =>
        exact absurd (by rw [List.drop_zero]; exact List.isPrefixOf_iff_prefix.mp h0)
          (hmin 0 (Nat.succ_pos k'))
    · cases k with
      | zero =>
        rw [List.drop_zero] at hk
        exact absurd (List.isPrefixOf_iff_prefix.mpr hk) h0
      | succ k' =>
        rw [List.drop_succ_cons] at hk
        have hmin' : ∀ j, j < k' → ¬ (n <+: t.drop j) := by
          intro j hj hpre
          exact hmin (j + 1) (by omega) (by rw [List.drop_succ_cons]; exact hpre)
        rw [firstMatch, if_neg h0, ih hk hmin']
        rfl

theorem prefix_of_append_of_length_le {n a b : List Char} (h : n <+: a ++ b)
    (hlen : n.length ≤ a.length) : n <+: a := by
  rw [List.prefix_iff_eq_take] at h ⊢
  rwa [List.take_append_of_le_length hlen] at h

theorem stripYaml_strips (c rest : List Char)
    (hc : hasSub yamlClose (c ++ yamlCloseHead) = false) :
    stripYaml (yamlOpen ++ (c ++ (yamlClose ++ rest))) = rest := by
  have hpre : yamlOpen.isPrefixOf (yamlOpen ++ (c ++ (yamlClose ++ rest))) = true :=
    List.isPrefixOf_iff_prefix.mpr ⟨c ++ (yamlClose ++ rest), rfl⟩
  have h4 : (yamlOpen ++ (c ++ (yamlClose ++ rest))).drop 4 = c ++ (yamlClose ++ rest) := by
    simp [yamlOpen]
  have hfm : firstMatch yamlClose (c ++ (yamlClose ++ rest)) = some c.length := by
    apply firstMatch_eq_some
    · rw [List.drop_left]
      exact ⟨rest, rfl⟩
    · intro j hj hpre2
      have hX : c ++ (yamlClose ++ rest) = (c ++ yamlCloseHead) ++ ('\n' :: rest) := by
        rw [List.append_assoc]
        rfl
      rw [hX] at hpre2
      have hj4 : j ≤ (c ++ yamlCloseHead).length := by
        rw [List.length_append]
        have : yamlCloseHead.length = 4 := rfl
        omega
      rw [List.drop_append_of_le_length hj4] at hpre2
      have hlen5 : yamlClose.length ≤ ((c ++ yamlCloseHead).drop j).length := by
        rw [List.length_drop, List.length_append]
        have h1 : yamlClose.length = 5 := rfl
        have h2 : yamlCloseHead.length = 4 := rfl
        omega
      have hin := firstMatch_isSome (prefix_of_append_of_length_le hpre2 hlen5)
      unfold hasSub at hc
      simp [hin] at hc
  unfold stripYaml
  rw [if_pos hpre, h4, hfm]
  show ((c ++ (yamlClose ++ rest)).drop (c.length + 5)) = rest
  have hassoc : c ++ (yamlClose ++ rest) = (c ++ yamlClose) ++ rest :=
    (List.append_assoc c yamlClose rest).symm
  rw [hassoc]
  have h5 : (c ++ yamlClose).length = c.length + 5 := by
    rw [List.length_append]
    rfl
  rw [← h5, List.drop_left]

theorem truncateContent_length_le (s : List Char) (m : Nat) :
    (truncateContent s m).length ≤ m := by
  unfold truncateContent
  split
  · simp
  · omega

/-! Helper fact used by the claim theorems. -/

theorem data_ne_nil_of_ne (s : String) (h : ¬ s = "") : ¬ s.data = [] := by
  rcases s with ⟨data⟩
  cases data with
  | nil => exact absurd rfl h
  | cons c cs => simp

/-! Claim theorems. -/

/-- C1 counterexample: the reply `"5"` parses successfully to a JSON
number — not a sequence of strings — yet `parseReply` returns that number
as-is instead of the comma-split fallback `["5"]` the claim requires for
every wrong-shape parse. -/
theorem parseReply_wrong_shape_counterexample :
    jsonParse "5" = some (.num "5") ∧
    parseReply "5" = .num "5" ∧
    parseReply "5" ≠ .arr [.str "5"] :=
  ⟨rfl, rfl, by decide⟩

/-- C1 (amended): the comma-split fallback runs exactly when `JSON.parse`
throws (malformed syntax); it splits the reply on commas, trims each
segment, keeps empty segments and segment order, and always succeeds. A
reply that parses successfully — sequence of strings or not — is returned
as-is, with no shape check and no re-split. -/
theorem parseReply_fallback (raw : String) :
    (jsonParse raw = none →
      parseReply raw =
        .arr ((splitComma raw.toList).map (fun g => .str (String.mk (trimChars g))))) ∧
    (∀ v, jsonParse raw = some v → parseReply raw = v) := by
  constructor
  · intro h
    simp [parseReply, h]
  · intro v h
    simp [parseReply, h]

/-- C1 witness: a non-JSON reply is comma-split and trimmed. -/
theorem parseReply_fallback_witness :
    jsonParse "Лесной, лесок, лесная зона" = none ∧
    parseReply "Лесной, лесок, лесная зона" =
      .arr [.str "Лесной", .str "лесок", .str "лесная зона"] := by
  refine ⟨rfl, ?_⟩
  have h := (parseReply_fallback "Лесной, лесок, лесная зона").1 rfl
  rw [h]
  rfl

/-- C6: a reply that is a well-formed JSON array of strings parses to
exactly that array — original order, no deduplication, no other
modification. -/
theorem parseReply_structured_array (raw : String) (vs : List Json)
    (harr : jsonParse raw = some (.arr vs)) (hstr : ∀ v ∈ vs, ∃ s, v = .str s) :
    parseReply raw = .arr vs := by
  simp [parseReply, harr]

/-- C6 witness at the reply `["Оке", "Окой"]`. -/
theorem parseReply_structured_array_witness :
    parseReply "[\"Оке\", \"Окой\"]" = .arr [.str "Оке", .str "Окой"] := by
  refine parseReply_structured_array _ _ rfl ?_
  intro v hv
  simp at hv
  rcases hv with h | h <;> exact ⟨_, h⟩

/-- C2 counterexample: with an empty-string model reply the parsed value
is `[""]`, which passes the `length > 0` guard — no empty-string filtering
exists anywhere — so the orchestrator writes `aliases: [""]` and reports
success instead of aborting without a write. -/
theorem addAliases_empty_reply_writes :
    addAliases (some exampleFile) "k" 2000 (.success (some (replyBody ""))) =
      ⟨some (.arr [.str ""]), [updatedMsg], true⟩ ∧
    (addAliases (some exampleFile) "k" 2000 (.success (some (replyBody "")))).written ≠ none :=
  ⟨rfl, by decide⟩

/-- C2 (amended): whenever the value the call returns is the empty array —
every error path, and every reply whose parse yields `[]` — the
orchestrator shows the "could not obtain aliases" notice and writes
nothing; empty strings are never filtered out, so a nonempty parse result
such as `[""]` is merged and written. -/
theorem addAliases_empty_parse_aborts (file : FileData) (key : String)
    (maxLen : Nat) (api : ApiOutcome) (hkey : ¬ key = "")
    (hempty : (getAliases api).returned = .arr []) :
    addAliases (some file) key maxLen api =
      ⟨none, (getAliases api).notices ++ [failedMsg], true⟩ := by
  simp only [addAliases]
  rw [if_neg hkey]
  simp [hempty, jsHasPositiveLength]

/-- C2 witness: the reply `[]` parses to the empty array and aborts. -/
theorem addAliases_empty_parse_aborts_witness :
    addAliases (some exampleFile) "k" 7 (.success (some (replyBody "[]"))) =
      ⟨none, [failedMsg], true⟩ :=
  addAliases_empty_parse_aborts exampleFile "k" 7
    (.success (some (replyBody "[]"))) (by decide) rfl

/-- C7: with no active document or an empty credential the orchestrator
aborts with a single user notice, performs no network call, and writes
nothing. -/
theorem addAliases_preconditions_abort (activeFile : Option FileData)
    (key : String) (maxLen : Nat) (api : ApiOutcome)
    (h : activeFile = none ∨ key = "") :
    (addAliases activeFile key maxLen api).written = none ∧
    (addAliases activeFile key maxLen api).networkCalled = false ∧
    ((addAliases activeFile key maxLen api).notices = [noFileMsg] ∨
      (addAliases activeFile key maxLen api).notices = [noKeyMsg]) := by
  rcases h with h | h
  · subst h
    exact ⟨rfl, rfl, Or.inl rfl⟩
  · subst h
    cases activeFile with
    | none => exact ⟨rfl, rfl, Or.inl rfl⟩
    | some f => exact ⟨rfl, rfl, Or.inr rfl⟩

/-- C7 witness: no active document, arbitrary network outcome. -/
theorem addAliases_preconditions_abort_witness :
    (addAliases none "k" 0 .transportError).written = none ∧
    (addAliases none "k" 0 .transportError).networkCalled = false ∧
    ((addAliases none "k" 0 .transportError).notices = [noFileMsg] ∨
      (addAliases none "k" 0 .transportError).notices = [noKeyMsg]) :=
  addAliases_preconditions_abort none "k" 0 .transportError (Or.inl rfl)

/-- C8 counterexample: a success body with no `choices` field lands in the
same generic catch as a transport failure — identical returned value and
identical connectivity notice — so no distinct malformed-response error
kind exists. -/
theorem getAliases_malformed_counterexample :
    getAliases (.success (some (.obj []))) = getAliases .transportError ∧
    (getAliases (.success (some (.obj [])))).notices = [netErrMsg] ∧
    (getAliases (.success (some (.obj [])))).logged = true :=
  ⟨rfl, rfl, rfl⟩

/-- C8 (amended): every success body on which the field extraction
`data.choices[0].message.content.trim()` throws is handled by the one
generic catch — logged, generic connectivity notice, empty array
returned — indistinguishable from a transport error. -/
theorem getAliases_malformed_generic (body : Json)
    (h : extractContent body = none) :
    getAliases (.success (some body)) = getAliases .transportError := by
  simp [getAliases, h]

/-- C8 witness: a success body that is a bare string. -/
theorem getAliases_malformed_generic_witness :
    getAliases (.success (some (.str "oops"))) = getAliases .transportError :=
  getAliases_malformed_generic (.str "oops") rfl

/-- C3 counterexample: when the existing collection itself contains
duplicates, its elements do not form a prefix of the merge result — the
Set also deduplicates within the existing collection. -/
theorem mergeAliases_prefix_counterexample :
    mergeAliases ["a", "a"] [] = ["a"] ∧
    ¬ (["a", "a"] <+: mergeAliases ["a", "a"] []) :=
  ⟨rfl, fun h => absurd h.length_le (by decide)⟩

/-- C3 (amended): the merge result contains exactly the union of the
members of `E` and `D`, with no duplicates under exact string equality
(values differing in case or whitespace stay distinct), ordered as a
subsequence of `E ++ D` by first occurrence; the deduplicated `E` is a
prefix of the result, and `E` itself is a prefix whenever `E` has no
internal duplicates. -/
theorem mergeAliases_spec (E D : List String) :
    (∀ a, a ∈ mergeAliases E D ↔ a ∈ E ∨ a ∈ D) ∧
    (mergeAliases E D).Nodup ∧
    List.Sublist (mergeAliases E D) (E ++ D) ∧
    (mergeAliases E D).Pairwise (fun a b => firstIdx a (E ++ D) < firstIdx b (E ++ D)) ∧
    jsSetDedup E <+: mergeAliases E D ∧
    (E.Nodup → E <+: mergeAliases E D) := by
  refine ⟨?_, ?_, ?_, ?_, ?_, ?_⟩
  · intro a
    rw [mergeAliases, jsSetDedup, mem_dedupFirstAux]
    simp
  · exact dedupFirstAux_nodup [] (E ++ D)
  · exact dedupFirstAux_sublist [] (E ++ D)
  · exact dedupFirstAux_pairwise_firstIdx [] (E ++ D)
  · exact dedupFirstAux_prefix_append [] E D
  · intro hnd
    have he : jsSetDedup E = E := dedupFirstAux_eq_self hnd (by simp)
    have hp : jsSetDedup E <+: mergeAliases E D := dedupFirstAux_prefix_append [] E D
    rw [he] at hp
    exact hp

/-- C3 witness: scenario-B-style merge, duplicate-free existing aliases;
"Лесок" and "лесок" differ only by case and are both kept. -/
theorem mergeAliases_spec_witness :
    ("лесок" ∈ mergeAliases ["Лесок"] ["Лесной", "лесок"] ↔
      "лесок" ∈ ["Лесок"] ∨ "лесок" ∈ ["Лесной", "лесок"]) ∧
    (mergeAliases ["Лесок"] ["Лесной", "лесок"]).Nodup ∧
    ["Лесок"] <+: mergeAliases ["Лесок"] ["Лесной", "лесок"] :=
  ⟨(mergeAliases_spec ["Лесок"] ["Лесной", "лесок"]).1 "лесок",
   (mergeAliases_spec ["Лесок"] ["Лесной", "лесок"]).2.1,
   (mergeAliases_spec ["Лесок"] ["Лесной", "лесок"]).2.2.2.2.2 (by decide)⟩

/-- C5: merging the same discovered sequence a second time changes
nothing. -/
theorem mergeAliases_idempotent (E D : List String) :
    mergeAliases (mergeAliases E D) D = mergeAliases E D := by
  show jsSetDedup (jsSetDedup (E ++ D) ++ D) = jsSetDedup (E ++ D)
  unfold jsSetDedup
  rw [dedupFirstAux_append_absorb fun a ha =>
    Or.inr (mem_dedupFirstAux.mpr ⟨List.mem_append_right E ha, List.not_mem_nil a⟩)]
  exact dedupFirstAux_eq_self (dedupFirstAux_nodup [] (E ++ D)) fun a _ => List.not_mem_nil a

/-- C9 counterexample: existing aliases `["a", "a"]` merged with zero
discovered aliases give `["a"]`, not normalized-existing unchanged — the
Set collapses duplicates already present in the existing collection. -/
theorem updateFrontMatter_zero_discovered_counterexample :
    updateFrontMatter (some (.arr [.str "a", .str "a"])) [] = [.str "a"] ∧
    normalizeExisting (some (.arr [.str "a", .str "a"])) = [.str "a", .str "a"] ∧
    updateFrontMatter (some (.arr [.str "a", .str "a"])) [] ≠
      normalizeExisting (some (.arr [.str "a", .str "a"])) :=
  ⟨rfl, rfl, by decide⟩

/-- C9 (amended): merging zero discovered aliases returns the keep-first
deduplication of normalized-existing, which equals normalized-existing
exactly as the claim states whenever that sequence is duplicate-free;
normalization sends an absent value to the empty sequence, a nonempty
single string to a one-element sequence, and an array to itself (the
empty string, being falsy, also normalizes to the empty sequence). -/
theorem updateFrontMatter_zero_discovered (fm : Option Json) (s : String)
    (l : List Json) (hnd : (normalizeExisting fm).Nodup) (hs : ¬ s = "") :
    updateFrontMatter fm [] = jsSetDedup (normalizeExisting fm) ∧
    updateFrontMatter fm [] = normalizeExisting fm ∧
    normalizeExisting none = [] ∧
    normalizeExisting (some (.str s)) = [.str s] ∧
    normalizeExisting (some (.arr l)) = l := by
  have h1 : updateFrontMatter fm [] = jsSetDedup (normalizeExisting fm) := by
    rw [updateFrontMatter, List.append_nil]
  refine ⟨h1, ?_, rfl, ?_, rfl⟩
  · rw [h1]
    exact dedupFirstAux_eq_self hnd (by simp)
  · simp [normalizeExisting, jsTruthy]
    exact data_ne_nil_of_ne s hs

/-- C9 witness: a duplicate-free existing collection is returned
unchanged. -/
theorem updateFrontMatter_zero_discovered_witness :
    updateFrontMatter (some (.arr [.str "Лесок"])) [] =
      jsSetDedup (normalizeExisting (some (.arr [.str "Лесок"]))) ∧
    updateFrontMatter (some (.arr [.str "Лесок"])) [] =
      normalizeExisting (some (.arr [.str "Лесок"])) ∧
    normalizeExisting none = [] ∧
    normalizeExisting (some (.str "x")) = [.str "x"] ∧
    normalizeExisting (some (.arr [.null])) = [.null] :=
  updateFrontMatter_zero_discovered (some (.arr [.str "Лесок"])) "x" [.null]
    (by decide) (by decide)

/-- C10: a frontmatter `aliases` value that is neither an array nor a
string — or the falsy empty string — normalizes to the empty sequence, so
the rewritten field holds exactly the deduplicated discovered aliases and
the original value is overwritten; what is written is always an array,
with a single existing string becoming a one-element prefix of it. -/
theorem updateFrontMatter_unexpected_existing (v : Json) (d : List Json)
    (s : String) (h : isArrayOrString v = false ∨ v = .str "") (hs : ¬ s = "") :
    normalizeExisting (some v) = [] ∧
    updateFrontMatter (some v) d = jsSetDedup d ∧
    writtenAliases (some v) d = .arr (jsSetDedup d) ∧
    writtenAliases (some (.str s)) d = .arr (jsSetDedup (.str s :: d)) := by
  have h1 : normalizeExisting (some v) = [] := by
    rcases h with h | h
    · cases v with
      | arr l => simp [isArrayOrString] at h
      | str t => simp [isArrayOrString] at h
      | null => rfl
      | bool b => cases b <;> rfl
      | num lx => simp [normalizeExisting]
      | obj f => rfl
    · subst h
      rfl
  have h2 : updateFrontMatter (some v) d = jsSetDedup d := by
    rw [updateFrontMatter, h1, List.nil_append]
  have h4 : normalizeExisting (some (.str s)) = [.str s] := by
    simp [normalizeExisting, jsTruthy]
    exact data_ne_nil_of_ne s hs
  refine ⟨h1, h2, ?_, ?_⟩
  · rw [writtenAliases, h2]
  · rw [writtenAliases, updateFrontMatter, h4]
    rfl

/-- C10 witness: a numeric existing value is discarded; a string existing
value still yields an array. -/
theorem updateFrontMatter_unexpected_existing_witness :
    normalizeExisting (some (.num "5")) = [] ∧
    updateFrontMatter (some (.num "5")) [.str "x", .str "x"] =
      jsSetDedup [.str "x", .str "x"] ∧
    writtenAliases (some (.num "5")) [.str "x", .str "x"] =
      .arr (jsSetDedup [.str "x", .str "x"]) ∧
    writtenAliases (some (.str "y")) [.str "x", .str "x"] =
      .arr (jsSetDedup (.str "y" :: [.str "x", .str "x"])) :=
  updateFrontMatter_unexpected_existing (.num "5") [.str "x", .str "x"] "y"
    (Or.inl rfl) (by decide)

/-- C4: the prompt body excerpt never exceeds the configured cap, and a
leading frontmatter block (opening `---` line, block content, closing
`---` line) is removed before truncation, so the cap applies only to the
remaining body and the stripped block never counts toward it. -/
theorem buildBody_strips_and_caps (s c rest : List Char) (m : Nat)
    (hc : hasSub yamlClose (c ++ yamlCloseHead) = false) :
    (buildBody s m).length ≤ m ∧
    stripYaml (yamlOpen ++ (c ++ (yamlClose ++ rest))) = rest ∧
    buildBody (yamlOpen ++ (c ++ (yamlClose ++ rest))) m = truncateContent rest m := by
  refine ⟨truncateContent_length_le _ _, stripYaml_strips c rest hc, ?_⟩
  rw [buildBody, stripYaml_strips c rest hc]

/-- C4 witness: a four-character body behind a frontmatter block is
truncated to the two-character cap; the block chars do not count. -/
theorem buildBody_strips_and_caps_witness :
    (buildBody ['q'] 2).length ≤ 2 ∧
    stripYaml (yamlOpen ++ (['x'] ++ (yamlClose ++ ['B', 'O', 'D', 'Y']))) =
      ['B', 'O', 'D', 'Y'] ∧
    buildBody (yamlOpen ++ (['x'] ++ (yamlClose ++ ['B', 'O', 'D', 'Y']))) 2 =
      truncateContent ['B', 'O', 'D', 'Y'] 2 :=
  buildBody_strips_and_caps ['q'] ['x'] ['B', 'O', 'D', 'Y'] 2 (by decide)
